import Mathlib

/-!
# ChainChess contract — verification development

A shallow embedding of `src/apps/chainchess/src/contract.rs` (with the shared
types of `lib.rs` and the stored state of `state.rs`), together with theorems
about the embedded operations.

The contract delegates board-level chess rules to the external `chess` crate
(`Board`, `MoveGen`, `ChessMove`). That crate is not part of this repository,
so its behaviour is modelled here from the specification's description:
"full legal-move set for the side to move", enforcing "check, pinning,
castling rights, en-passant, promotion requirements", with positions carried
as FEN strings and classified as ongoing / stalemate / checkmate.  The
legal-move enumeration order is pinned to ascending source-square index and a
fixed per-piece direction order, as the specification requires a fixed
canonical ordering.  The crate's `Color` and the application's `PlayerColor`
are isomorphic two-variant types mapped to a single Lean type here.

Storage (`RegisterView` / `MapView`) is modelled as a record holding an
association list per map; `runtime.chain_id()` and `runtime.system_time()`
are modelled as explicit parameters, one timestamp parameter per phase of an
operation that reads the clock.
-/

set_option maxRecDepth 8000

namespace ChainChess

/-- Side / seat colour (`PlayerColor` in `lib.rs`, also standing in for the
chess crate's `Color`). -/
inductive PlayerColor
  | White
  | Black
deriving DecidableEq, Repr

/-- `PlayerColor::other` from `lib.rs`. -/
def PlayerColor.other : PlayerColor → PlayerColor
  | .White => .Black
  | .Black => .White

/-- Modelled from the spec: the six chess piece kinds of the external chess
crate's `Piece` type. -/
inductive PieceKind
  | Pawn
  | Knight
  | Bishop
  | Rook
  | Queen
  | King
deriving DecidableEq, Repr

/-- A board cell: empty or a piece of a colour. -/
abbrev Cell := Option (PieceKind × PlayerColor)

/-- Modelled from the spec: the chess crate's `Board` — piece placement,
side to move, castling rights, en-passant target, move counters.  Squares
are indexed 0..63 with index = rank * 8 + file, rank 0 being rank 1. -/
structure Board where
  cells : List Cell
  sideToMove : PlayerColor
  castleWK : Bool
  castleWQ : Bool
  castleBK : Bool
  castleBQ : Bool
  epTarget : Option Nat
  halfmove : Nat
  fullmove : Nat
deriving DecidableEq, Repr

/-- Modelled from the spec: the chess crate's `ChessMove` — source square,
destination square, optional promotion piece. -/
structure CMove where
  src : Nat
  dst : Nat
  promo : Option PieceKind
deriving DecidableEq, Repr

def fileOf (sq : Nat) : Nat := sq % 8

def rankOf (sq : Nat) : Nat := sq / 8

def cellAt (b : Board) (sq : Nat) : Cell := b.cells.getD sq none

/-- Square from file/rank coordinates, `none` when off the board. -/
def mkSq (f r : Int) : Option Nat :=
  if 0 ≤ f ∧ f < 8 ∧ 0 ≤ r ∧ r < 8 then some (r * 8 + f).toNat else none

/-- Shift a square by a file/rank delta, `none` when leaving the board. -/
def shiftSq (sq : Nat) (df dr : Int) : Option Nat :=
  mkSq ((fileOf sq : Int) + df) ((rankOf sq : Int) + dr)

def knightDeltas : List (Int × Int) :=
  [(1, 2), (2, 1), (2, -1), (1, -2), (-1, -2), (-2, -1), (-2, 1), (-1, 2)]

def kingDeltas : List (Int × Int) :=
  [(-1, -1), (-1, 0), (-1, 1), (0, -1), (0, 1), (1, -1), (1, 0), (1, 1)]

def diagDirs : List (Int × Int) := [(1, 1), (1, -1), (-1, 1), (-1, -1)]

def orthoDirs : List (Int × Int) := [(1, 0), (-1, 0), (0, 1), (0, -1)]

/-- First piece encountered walking from `sq` in direction `(df, dr)`. -/
def rayFirst (b : Board) (df dr : Int) : Nat → Nat → Option (PieceKind × PlayerColor)
  | _, 0 => none
  | sq, fuel + 1 =>
    match shiftSq sq df dr with
    | none => none
    | some sq2 =>
      match cellAt b sq2 with
      | some p => some p
      | none => rayFirst b df dr sq2 fuel

/-- Is `sq` attacked by a piece of colour `byC`?  Covers pawn, knight, king,
and sliding attacks along clear rays. -/
def attacked (b : Board) (byC : PlayerColor) (sq : Nat) : Bool :=
  let hasP : Option Nat → PieceKind → Bool := fun o k =>
    match o with
    | some s => cellAt b s == some (k, byC)
    | none => false
  let pawnDr : Int := if byC = .White then -1 else 1
  knightDeltas.any (fun d => hasP (shiftSq sq d.1 d.2) .Knight) ||
  kingDeltas.any (fun d => hasP (shiftSq sq d.1 d.2) .King) ||
  hasP (shiftSq sq (-1) pawnDr) .Pawn || hasP (shiftSq sq 1 pawnDr) .Pawn ||
  diagDirs.any (fun d =>
    match rayFirst b d.1 d.2 sq 7 with
    | some (k, c) => c == byC && (k == .Bishop || k == .Queen)
    | none => false) ||
  orthoDirs.any (fun d =>
    match rayFirst b d.1 d.2 sq 7 with
    | some (k, c) => c == byC && (k == .Rook || k == .Queen)
    | none => false)

def kingSq (b : Board) (c : PlayerColor) : Option Nat :=
  (List.range 64).find? (fun s => cellAt b s == some (.King, c))

/-- Is the king of colour `c` in check? -/
def inCheck (b : Board) (c : PlayerColor) : Bool :=
  match kingSq b c with
  | some s => attacked b c.other s
  | none => false

def pawnDir (c : PlayerColor) : Int := if c = .White then 1 else -1

def setCell (cells : List Cell) (sq : Nat) (v : Cell) : List Cell := cells.set sq v

/-- Modelled from the spec: the chess crate's `Board::make_move_new` — apply
a move, handling captures, en passant, castling rook transfer, promotion,
castling-right, en-passant, clock and side-to-move updates. -/
def makeMove (b : Board) (m : CMove) : Board :=
  match cellAt b m.src with
  | none => b
  | some (k, c) =>
    let isCapture := (cellAt b m.dst).isSome
    let isEp := k = .Pawn ∧ b.epTarget = some m.dst ∧ fileOf m.src ≠ fileOf m.dst ∧ ¬ isCapture
    let cells1 := setCell (setCell b.cells m.src none) m.dst (some (m.promo.getD k, c))
    let cells2 :=
      if isEp then setCell cells1 (((m.dst : Int) - 8 * pawnDir c).toNat) none else cells1
    let cells3 :=
      if k = .King ∧ fileOf m.src = 4 ∧ fileOf m.dst = 6 then
        setCell (setCell cells2 (rankOf m.src * 8 + 7) none) (rankOf m.src * 8 + 5)
          (some (.Rook, c))
      else if k = .King ∧ fileOf m.src = 4 ∧ fileOf m.dst = 2 then
        setCell (setCell cells2 (rankOf m.src * 8) none) (rankOf m.src * 8 + 3)
          (some (.Rook, c))
      else cells2
    { cells := cells3
      sideToMove := b.sideToMove.other
      castleWK := b.castleWK && !(m.src == 4) && !(m.src == 7) && !(m.dst == 7)
      castleWQ := b.castleWQ && !(m.src == 4) && !(m.src == 0) && !(m.dst == 0)
      castleBK := b.castleBK && !(m.src == 60) && !(m.src == 63) && !(m.dst == 63)
      castleBQ := b.castleBQ && !(m.src == 60) && !(m.src == 56) && !(m.dst == 56)
      epTarget :=
        if k = .Pawn ∧ ((rankOf m.dst : Int) - rankOf m.src).natAbs = 2 then
          some ((m.src + m.dst) / 2)
        else none
      halfmove := if k = .Pawn ∨ isCapture then 0 else b.halfmove + 1
      fullmove := if c = .Black then b.fullmove + 1 else b.fullmove }

def pawnPromoKinds : List PieceKind := [.Queen, .Rook, .Bishop, .Knight]

/-- Expand a pawn move to its promotion variants on the last rank. -/
def promoteIfNeeded (c : PlayerColor) (src dst : Nat) : List CMove :=
  if rankOf dst = (if c = .White then 7 else 0) then
    pawnPromoKinds.map (fun p => ⟨src, dst, some p⟩)
  else [⟨src, dst, none⟩]

/-- Pseudo-legal pawn moves from `src`: pushes, double pushes, captures and
en-passant captures, with promotion variants. -/
def pawnMoves (b : Board) (c : PlayerColor) (src : Nat) : List CMove :=
  let dir := pawnDir c
  let pushes :=
    match shiftSq src 0 dir with
    | some d1 =>
      if (cellAt b d1).isNone then
        promoteIfNeeded c src d1 ++
        (if rankOf src = (if c = .White then 1 else 6) then
          match shiftSq src 0 (2 * dir) with
          | some d2 => if (cellAt b d2).isNone then [⟨src, d2, none⟩] else []
          | none => []
        else [])
      else []
    | none => []
  let caps := ([-1, 1] : List Int).flatMap (fun df =>
    match shiftSq src df dir with
    | some d =>
      match cellAt b d with
      | some (_, c2) => if c2 = c then [] else promoteIfNeeded c src d
      | none => if b.epTarget = some d then [⟨src, d, none⟩] else []
    | none => [])
  pushes ++ caps

/-- Pseudo-legal moves of a single-step piece (knight or king). -/
def leaperMoves (b : Board) (c : PlayerColor) (src : Nat) (deltas : List (Int × Int)) :
    List CMove :=
  deltas.flatMap (fun d =>
    match shiftSq src d.1 d.2 with
    | some t =>
      match cellAt b t with
      | some (_, c2) => if c2 = c then [] else [⟨src, t, none⟩]
      | none => [⟨src, t, none⟩]
    | none => [])

/-- Walk one sliding ray collecting quiet moves and the first capture. -/
def slideWalk (b : Board) (c : PlayerColor) (src : Nat) (df dr : Int) :
    Nat → Nat → List CMove
  | _, 0 => []
  | cur, fuel + 1 =>
    match shiftSq cur df dr with
    | none => []
    | some t =>
      match cellAt b t with
      | none => ⟨src, t, none⟩ :: slideWalk b c src df dr t fuel
      | some (_, c2) => if c2 = c then [] else [⟨src, t, none⟩]

def slideMoves (b : Board) (c : PlayerColor) (src : Nat) (dirs : List (Int × Int)) :
    List CMove :=
  dirs.flatMap (fun d => slideWalk b c src d.1 d.2 src 7)

/-- Castling moves of the king on its home square: right present, rook in
place, intervening squares empty, king's path not attacked. -/
def castleMoves (b : Board) (c : PlayerColor) (src : Nat) : List CMove :=
  let home := if c = .White then 0 else 56
  if src ≠ home + 4 then []
  else
    let enemy := c.other
    let kside :=
      (if c = .White then b.castleWK else b.castleBK) &&
      cellAt b (home + 7) == some (.Rook, c) &&
      (cellAt b (home + 5)).isNone && (cellAt b (home + 6)).isNone &&
      !(attacked b enemy (home + 4)) && !(attacked b enemy (home + 5)) &&
      !(attacked b enemy (home + 6))
    let qside :=
      (if c = .White then b.castleWQ else b.castleBQ) &&
      cellAt b home == some (.Rook, c) &&
      (cellAt b (home + 1)).isNone && (cellAt b (home + 2)).isNone &&
      (cellAt b (home + 3)).isNone &&
      !(attacked b enemy (home + 4)) && !(attacked b enemy (home + 3)) &&
      !(attacked b enemy (home + 2))
    (if kside then [⟨home + 4, home + 6, none⟩] else []) ++
    (if qside then [⟨home + 4, home + 2, none⟩] else [])

/-- Pseudo-legal moves from one source square, in the pinned per-piece
generation order. -/
def pseudoFrom (b : Board) (src : Nat) : List CMove :=
  match cellAt b src with
  | none => []
  | some (k, c) =>
    if c ≠ b.sideToMove then []
    else
      match k with
      | .Pawn => pawnMoves b c src
      | .Knight => leaperMoves b c src knightDeltas
      | .Bishop => slideMoves b c src diagDirs
      | .Rook => slideMoves b c src orthoDirs
      | .Queen => slideMoves b c src (diagDirs ++ orthoDirs)
      | .King => leaperMoves b c src kingDeltas ++ castleMoves b c src

/-- Modelled from the spec: the chess crate's `MoveGen::new_legal` — the full
legal-move set of the side to move, in ascending source-square order; a
pseudo-legal move is legal when it does not leave the mover's king attacked. -/
def legalMoves (b : Board) : List CMove :=
  ((List.range 64).flatMap (pseudoFrom b)).filter
    (fun m => !(inCheck (makeMove b m) b.sideToMove))

/-- Modelled from the spec: the chess crate's `BoardStatus`. -/
inductive BoardStatus
  | Ongoing
  | Stalemate
  | Checkmate
deriving DecidableEq, Repr

/-- Modelled from the spec: the chess crate's `Board::status` — checkmate or
stalemate when no legal move exists (depending on check), ongoing otherwise. -/
def boardStatus (b : Board) : BoardStatus :=
  if legalMoves b = [] then
    if inCheck b b.sideToMove then .Checkmate else .Stalemate
  else .Ongoing

/-! ## FEN serialization and parsing

String splitting, lower-casing, digit parsing and joining are implemented
here by structural recursion over character lists (they model the standard
library string routines the Rust code uses). -/

/-- Split a character list on a separator character. -/
def splitChar (sep : Char) : List Char → List (List Char)
  | [] => [[]]
  | c :: rest =>
    match splitChar sep rest with
    | [] => if c = sep then [[], []] else [[c]]
    | grp :: rs => if c = sep then [] :: grp :: rs else (c :: grp) :: rs

/-- Split a string on a separator character. -/
def splitStr (s : String) (sep : Char) : List String :=
  (splitChar sep s.toList).map String.mk

/-- ASCII lower-casing of a string. -/
def lowerStr (s : String) : String := String.mk (s.toList.map Char.toLower)

/-- Decimal parsing of a nonempty digit string. -/
def parseNat (cs : List Char) : Option Nat :=
  if cs = [] then none
  else if cs.all Char.isDigit then
    some (cs.foldl (fun acc c => acc * 10 + (c.toNat - '0'.toNat)) 0)
  else none

/-- Does the string contain the character? -/
def strContains (s : String) (c : Char) : Bool := s.toList.contains c

/-- Join strings with a separator. -/
def joinWith (sep : String) : List String → String
  | [] => ""
  | [x] => x
  | x :: xs => x ++ sep ++ joinWith sep xs

def pieceOfChar (ch : Char) : Option (PieceKind × PlayerColor) :=
  match ch with
  | 'P' => some (.Pawn, .White)
  | 'N' => some (.Knight, .White)
  | 'B' => some (.Bishop, .White)
  | 'R' => some (.Rook, .White)
  | 'Q' => some (.Queen, .White)
  | 'K' => some (.King, .White)
  | 'p' => some (.Pawn, .Black)
  | 'n' => some (.Knight, .Black)
  | 'b' => some (.Bishop, .Black)
  | 'r' => some (.Rook, .Black)
  | 'q' => some (.Queen, .Black)
  | 'k' => some (.King, .Black)
  | _ => none

def charOfPiece : PieceKind × PlayerColor → Char
  | (.Pawn, .White) => 'P'
  | (.Knight, .White) => 'N'
  | (.Bishop, .White) => 'B'
  | (.Rook, .White) => 'R'
  | (.Queen, .White) => 'Q'
  | (.King, .White) => 'K'
  | (.Pawn, .Black) => 'p'
  | (.Knight, .Black) => 'n'
  | (.Bishop, .Black) => 'b'
  | (.Rook, .Black) => 'r'
  | (.Queen, .Black) => 'q'
  | (.King, .Black) => 'k'

/-- Cells of one FEN placement row (digits expand to empty squares). -/
def rowCells : List Char → Option (List Cell)
  | [] => some []
  | ch :: rest =>
    if ch.isDigit then
      let n := ch.toNat - '0'.toNat
      if 1 ≤ n ∧ n ≤ 8 then (rowCells rest).map (fun cs => List.replicate n none ++ cs)
      else none
    else
      match pieceOfChar ch with
      | some p => (rowCells rest).map (fun cs => some p :: cs)
      | none => none

/-- Cells of a full FEN placement field; FEN lists rank 8 first, our cell
index 0 is a1, so the parsed rows are reversed. -/
def placementCells (s : String) : Option (List Cell) :=
  let rows := (splitStr s '/').map (fun r => rowCells r.toList)
  if rows.length = 8 ∧ rows.all Option.isSome then
    let cellRows := rows.map (fun o => o.getD [])
    if cellRows.all (fun r => r.length = 8) then some cellRows.reverse.flatten else none
  else none

/-- Algebraic square name parsing, as the chess crate's `Square::from_str`. -/
def squareOfStr (s : String) : Option Nat :=
  match s.toList with
  | [f, r] =>
    if 'a'.toNat ≤ f.toNat ∧ f.toNat ≤ 'h'.toNat ∧ '1'.toNat ≤ r.toNat ∧ r.toNat ≤ '8'.toNat
    then some ((r.toNat - '1'.toNat) * 8 + (f.toNat - 'a'.toNat))
    else none
  | _ => none

def squareName (sq : Nat) : String :=
  String.mk [Char.ofNat (97 + fileOf sq), Char.ofNat (49 + rankOf sq)]

/-- Modelled from the spec: the chess crate's `Board::from_str` — parse a
six-field FEN string. -/
def boardOfFen (s : String) : Option Board :=
  match splitStr s ' ' with
  | [pl, side, castle, ep, hm, fm] =>
    match placementCells pl with
    | none => none
    | some cells =>
      match (match side with | "w" => some PlayerColor.White | "b" => some PlayerColor.Black | _ => none) with
      | none => none
      | some stm =>
        match (if ep = "-" then some none else (squareOfStr ep).map some) with
        | none => none
        | some epSq =>
          match parseNat hm.toList, parseNat fm.toList with
          | some h, some f =>
            some { cells := cells, sideToMove := stm,
                   castleWK := strContains castle 'K', castleWQ := strContains castle 'Q',
                   castleBK := strContains castle 'k', castleBQ := strContains castle 'q',
                   epTarget := epSq, halfmove := h, fullmove := f }
          | _, _ => none
  | _ => none

/-- One FEN placement row with empty runs compressed. -/
def rowFen : List Cell → Nat → String
  | [], pending => if pending = 0 then "" else toString pending
  | none :: rest, pending => rowFen rest (pending + 1)
  | some p :: rest, pending =>
    (if pending = 0 then "" else toString pending) ++ String.mk [charOfPiece p] ++ rowFen rest 0

def fenPlacement (b : Board) : String :=
  joinWith "/"
    (((List.range 8).reverse).map (fun r => rowFen ((b.cells.drop (r * 8)).take 8) 0))

def castleString (b : Board) : String :=
  let s := (if b.castleWK then "K" else "") ++ (if b.castleWQ then "Q" else "") ++
    (if b.castleBK then "k" else "") ++ (if b.castleBQ then "q" else "")
  if s = "" then "-" else s

/-- Modelled from the spec: the chess crate's FEN `Display` for `Board`. -/
def fenOfBoard (b : Board) : String :=
  fenPlacement b ++ " " ++ (match b.sideToMove with | .White => "w" | .Black => "b") ++ " " ++
  castleString b ++ " " ++ (match b.epTarget with | some sq => squareName sq | none => "-") ++
  " " ++ toString b.halfmove ++ " " ++ toString b.fullmove

/-! ## Move application, SAN, and the AI heuristic (`contract.rs`) -/

/-- `ChainChessContract::promotion_piece`. -/
def promotion_piece (letter : Char) : Option PieceKind :=
  match letter.toLower with
  | 'q' => some .Queen
  | 'r' => some .Rook
  | 'b' => some .Bishop
  | 'n' => some .Knight
  | _ => none

/-- `ChainChessContract::parse_uci_move`: four coordinate characters plus an
optional promotion letter (taken from the last character). -/
def parse_uci_move (uci : String) : Option CMove :=
  let cs := uci.toList
  if cs.length < 4 then none
  else
    match squareOfStr (String.mk (cs.take 2)), squareOfStr (String.mk ((cs.drop 2).take 2)) with
    | some s, some t =>
      if cs.length > 4 then
        match promotion_piece (cs.getLastD 'q') with
        | some p => some ⟨s, t, some p⟩
        | none => none
      else some ⟨s, t, none⟩
    | _, _ => none

/-- `ChainChessContract::generate_san`: simplified move label. -/
def generate_san (b : Board) (m : CMove) : String :=
  let pieceChar : Char :=
    match cellAt b m.src with
    | some (.King, _) => 'K'
    | some (.Queen, _) => 'Q'
    | some (.Rook, _) => 'R'
    | some (.Bishop, _) => 'B'
    | some (.Knight, _) => 'N'
    | _ => ' '
  let fromSq := squareName m.src
  let toSq := squareName m.dst
  if (cellAt b m.dst).isSome then
    if pieceChar = ' ' then String.mk (fromSq.toList.take 1) ++ toSq
    else String.mk [pieceChar, 'x'] ++ toSq
  else
    match m.promo with
    | some promo =>
      let promoChar : Char :=
        match promo with
        | .Queen => 'Q'
        | .Rook => 'R'
        | .Bishop => 'B'
        | .Knight => 'N'
        | _ => 'Q'
      fromSq ++ toSq ++ String.mk ['=', promoChar]
    | none =>
      if pieceChar ≠ ' ' then String.mk [pieceChar] ++ toSq
      else fromSq ++ toSq

/-- `MatchResult` in `contract.rs`. -/
inductive MatchResult
  | Winner (c : PlayerColor)
  | Draw
deriving DecidableEq, Repr

/-- `MoveComputation` in `contract.rs`. -/
structure MoveComputation where
  fen : String
  uci : String
  san : Option String
  result : Option MatchResult
deriving DecidableEq, Repr

/-- Lower-casing and promotion-hint appending of `apply_uci_move`'s prologue:
a four-character move text gets the first character of the hint (defaulting
to `q` on an empty hint) appended. -/
def processUci (raw_uci : String) (promotion : Option String) : String :=
  let uci := lowerStr raw_uci
  if uci.length = 4 then
    match promotion with
    | some promo => uci.push (promo.toList.headD 'q')
    | none => uci
  else uci

/-- Outcome classification of `apply_uci_move`: ongoing is no result,
stalemate a draw, checkmate a win for the side that made the move (the side
to move of the pre-move board). -/
def classifyOutcome (preBoard postBoard : Board) : Option MatchResult :=
  match boardStatus postBoard with
  | .Ongoing => none
  | .Stalemate => some .Draw
  | .Checkmate => some (.Winner preBoard.sideToMove)

/-- `ChainChessContract::apply_uci_move`. -/
def apply_uci_move (current_fen raw_uci : String) (promotion : Option String) :
    Option MoveComputation :=
  match boardOfFen current_fen with
  | none => none
  | some fen_board =>
    let uci := processUci raw_uci promotion
    match parse_uci_move uci with
    | none => none
    | some chess_move =>
      if (legalMoves fen_board).any (fun legal => legal == chess_move) then
        let board_after := makeMove fen_board chess_move
        some { fen := fenOfBoard board_after
               uci := uci
               san := some (generate_san fen_board chess_move)
               result := classifyOutcome fen_board board_after }
      else none

/-- `ChainChessContract::piece_value`. -/
def piece_value : PieceKind → Int
  | .Pawn => 1
  | .Knight => 3
  | .Bishop => 3
  | .Rook => 5
  | .Queen => 9
  | .King => 0

/-- `ChainChessContract::square_bonus`. -/
def square_bonus (square : Nat) : Int :=
  let file : Int := fileOf square
  let rank : Int := rankOf square
  if (file = 3 ∨ file = 4) ∧ (rank = 3 ∨ rank = 4) then 2
  else if (2 ≤ file ∧ file ≤ 5) ∧ (2 ≤ rank ∧ rank ≤ 5) then 1
  else 0

/-- `ChainChessContract::score_move`. -/
def score_move (board : Board) (mv : CMove) : Int :=
  (match cellAt board mv.dst with
   | some (piece, _) => piece_value piece
   | none => 0) +
  (if mv.promo.isSome then 5 else 0) +
  square_bonus mv.dst

/-- `ChainChessContract::move_to_uci_string`. -/
def move_to_uci_string (mv : CMove) : String :=
  squareName mv.src ++ squareName mv.dst ++
    (match mv.promo with
     | some .Queen => "q"
     | some .Rook => "r"
     | some .Bishop => "b"
     | some .Knight => "n"
     | some _ => "q"
     | none => "")

/-- The accumulator step of `pick_ai_move`'s scan: keep the candidate whose
score strictly exceeds the best so far. -/
def pickStep (board : Board) (acc : Option CMove × Int) (mv : CMove) : Option CMove × Int :=
  if acc.2 < score_move board mv then (some mv, score_move board mv) else acc

/-- `i32::MIN`, the initial best score of `pick_ai_move`. -/
def i32Min : Int := -2147483648

/-- `ChainChessContract::pick_ai_move`. -/
def pick_ai_move (fen : String) : Option String :=
  match boardOfFen fen with
  | none => none
  | some board =>
    ((legalMoves board).foldl (pickStep board) (none, i32Min)).1.map move_to_uci_string

/-! ## Contract state and operations (`contract.rs`, `state.rs`, `lib.rs`) -/

/-- Chain identities (`ChainId`), abstracted to numbers. -/
abbrev ChainId := Nat

/-- Timestamps, abstracted to numbers. -/
abbrev Timestamp := Nat

/-- `GameStatus` in `lib.rs`. -/
inductive GameStatus
  | Lobby
  | Active
  | Finished
deriving DecidableEq, Repr

/-- `PlayerStats` in `lib.rs`. -/
structure PlayerStats where
  chain_id : ChainId
  wins : Nat
  losses : Nat
  draws : Nat
  games_played : Nat
  rating : Int
deriving DecidableEq, Repr

/-- `PlayerStats::new`. -/
def PlayerStats.new (chain_id : ChainId) : PlayerStats :=
  { chain_id := chain_id, wins := 0, losses := 0, draws := 0, games_played := 0, rating := 0 }

/-- `MoveRecord` in `lib.rs`. -/
structure MoveRecord where
  uci : String
  san : Option String
  played_by : PlayerColor
  played_at : Timestamp
deriving DecidableEq, Repr

/-- `StoredGame` in `state.rs`. -/
structure StoredGame where
  game_id : Nat
  white : ChainId
  black : Option ChainId
  ai_black : Bool
  board_fen : String
  moves : List MoveRecord
  turn : PlayerColor
  status : GameStatus
  winner : Option PlayerColor
  created_at : Timestamp
  updated_at : Timestamp
  metadata : Option String
deriving DecidableEq, Repr

/-- `ChainChessError` in `lib.rs`. -/
inductive ChainChessError
  | GameNotFound (id : Nat)
  | NotJoinable (id : Nat)
  | NotYourTurn
  | AlreadyFinished
  | MissingOpponent
  | InvalidMove (msg : String)
  | NotParticipant
  | LobbyLimitReached
deriving DecidableEq, Repr

/-- `ChainChessState` in `state.rs`: the register plus the two map views,
modelled as association lists keyed by game id and chain id. -/
structure ContractState where
  next_game_id : Nat
  active_games : List (Nat × StoredGame)
  leaderboard : List (ChainId × PlayerStats)
deriving DecidableEq, Repr

/-- `MapView::get`: first value stored under a key. -/
def lookupA {α β : Type} [DecidableEq α] : List (α × β) → α → Option β
  | [], _ => none
  | (k, v) :: rest, key => if k = key then some v else lookupA rest key

/-- `MapView::insert`: replace the value under a key, or append a new entry. -/
def insertA {α β : Type} [DecidableEq α] : List (α × β) → α → β → List (α × β)
  | [], key, v => [(key, v)]
  | (k, w) :: rest, key, v =>
    if k = key then (key, v) :: rest else (k, w) :: insertA rest key v

/-- `DEFAULT_FEN` in `contract.rs`. -/
def DEFAULT_FEN : String := "rnbqkbnr/pppppppp/8/8/8/8/PPPPPPPP/RNBQKBNR w KQkq - 0 1"

/-- `MAX_OPEN_GAMES_PER_CHAIN` in `contract.rs`. -/
def MAX_OPEN_GAMES_PER_CHAIN : Nat := 64

/-- `ChainChessContract::load_game`. -/
def load_game (st : ContractState) (game_id : Nat) : Option StoredGame :=
  lookupA st.active_games game_id

/-- `ChainChessContract::save_game`. -/
def save_game (st : ContractState) (game : StoredGame) : ContractState :=
  { st with active_games := insertA st.active_games game.game_id game }

/-- `ChainChessContract::list_games_for_chain`: count the stored games whose
white seat is `chain`, restricted to non-Finished ones unless `finished`. -/
def list_games_for_chain (st : ContractState) (chain : ChainId) (finished : Bool) : Nat :=
  (st.active_games.map Prod.snd).countP
    (fun game => game.white == chain && (finished || !(game.status == .Finished)))

/-- `ChainChessContract::bump_stats`. -/
def bump_stats (st : ContractState) (chain : ChainId) (f : PlayerStats → PlayerStats) :
    ContractState :=
  let stats := (lookupA st.leaderboard chain).getD (PlayerStats.new chain)
  { st with leaderboard := insertA st.leaderboard chain (f stats) }

/-- `ChainChessContract::player_chain`. -/
def player_chain (game : StoredGame) (color : PlayerColor) : Option ChainId :=
  match color with
  | .White => some game.white
  | .Black => game.black

/-- The stats mutation applied to the winner's record in `apply_result`. -/
def winBump (s : PlayerStats) : PlayerStats :=
  { s with wins := s.wins + 1, games_played := s.games_played + 1, rating := s.rating + 10 }

/-- The stats mutation applied to the loser's record in `apply_result`. -/
def lossBump (s : PlayerStats) : PlayerStats :=
  { s with losses := s.losses + 1, games_played := s.games_played + 1, rating := s.rating - 5 }

/-- The stats mutation applied to each record on a draw in `apply_result`. -/
def drawBump (s : PlayerStats) : PlayerStats :=
  { s with draws := s.draws + 1, games_played := s.games_played + 1, rating := s.rating + 1 }

/-- `ChainChessContract::apply_result`: mark the game Finished, set the
winner, and bump stats for every seat with a resolvable chain. -/
def apply_result (st : ContractState) (now : Timestamp) (game : StoredGame)
    (result : MatchResult) : ContractState × StoredGame :=
  let game1 := { game with
    status := GameStatus.Finished
    winner := match result with | .Winner color => some color | .Draw => none
    updated_at := now }
  let st1 :=
    match game1.winner with
    | some winner =>
      let stW :=
        match player_chain game1 winner with
        | some winner_chain => bump_stats st winner_chain winBump
        | none => st
      match player_chain game1 winner.other with
      | some loser_chain => bump_stats stW loser_chain lossBump
      | none => stW
    | none =>
      [PlayerColor.White, PlayerColor.Black].foldl
        (fun acc color =>
          match player_chain game1 color with
          | some chain => bump_stats acc chain drawBump
          | none => acc) st
  (st1, game1)

/-- `ChainChessContract::create_game`. -/
def create_game (st : ContractState) (creator : ChainId) (now : Timestamp)
    (metadata : Option String) (play_vs_ai : Bool) :
    ContractState × Except ChainChessError StoredGame :=
  if MAX_OPEN_GAMES_PER_CHAIN ≤ list_games_for_chain st creator false then
    (st, .error .LobbyLimitReached)
  else
    let game_id := st.next_game_id
    let st1 := { st with next_game_id := game_id + 1 }
    let game : StoredGame :=
      { game_id := game_id, white := creator, black := none, ai_black := play_vs_ai
        board_fen := DEFAULT_FEN, moves := [], turn := .White
        status := if play_vs_ai then .Active else .Lobby
        winner := none, created_at := now, updated_at := now, metadata := metadata }
    ({ st1 with active_games := insertA st1.active_games game_id game }, .ok game)

/-- `ChainChessContract::join_game`. -/
def join_game (st : ContractState) (caller : ChainId) (now : Timestamp) (game_id : Nat) :
    ContractState × Except ChainChessError StoredGame :=
  match load_game st game_id with
  | none => (st, .error (.GameNotFound game_id))
  | some game =>
    if game.ai_black then (st, .error (.NotJoinable game_id))
    else if game.status ≠ .Lobby ∨ game.black.isSome then (st, .error (.NotJoinable game_id))
    else if caller = game.white then (st, .error (.NotJoinable game_id))
    else
      let game1 := { game with black := some caller, status := GameStatus.Active,
                               updated_at := now }
      (save_game st game1, .ok game1)

/-- The caller-to-seat resolution at the top of `submit_move` (the third arm
of the Rust `if` chain is subsumed by the first and kept for fidelity). -/
def resolve_seat (game : StoredGame) (caller : ChainId) : Option PlayerColor :=
  if caller = game.white then some .White
  else if game.black = some caller then some .Black
  else if game.ai_black ∧ game.black = none ∧ caller = game.white then some .White
  else none

/-- The automated-opponent block of `submit_move`: when the game is an AI
game, still Active, and it is Black's turn, pick a heuristic move, validate
and apply it, and classify; on a missing or rejected AI move the game is
returned unchanged. -/
def ai_game2 (aiTime : Timestamp) (game : StoredGame) (ai_outcome : MoveComputation) :
    StoredGame :=
  { game with
    board_fen := ai_outcome.fen
    turn := PlayerColor.White
    moves := game.moves ++
      [{ uci := ai_outcome.uci, san := ai_outcome.san,
         played_by := PlayerColor.Black, played_at := aiTime }]
    updated_at := aiTime }

def ai_reply (st : ContractState) (aiTime : Timestamp) (game : StoredGame) :
    ContractState × StoredGame :=
  if game.ai_black ∧ game.status = .Active ∧ game.turn = .Black then
    match pick_ai_move game.board_fen with
    | some ai_move =>
      match apply_uci_move game.board_fen ai_move none with
      | some ai_outcome =>
        match ai_outcome.result with
        | some result => apply_result st aiTime (ai_game2 aiTime game ai_outcome) result
        | none => (st, ai_game2 aiTime game ai_outcome)
      | none => (st, game)
    | none => (st, game)
  else (st, game)

/-- The updated game after the human move of `submit_move` is recorded:
new position, flipped turn, appended move record. -/
def human_game1 (now : Timestamp) (game : StoredGame) (player_color : PlayerColor)
    (move_outcome : MoveComputation) : StoredGame :=
  { game with
    board_fen := move_outcome.fen
    turn := player_color.other
    moves := game.moves ++
      [{ uci := move_outcome.uci, san := move_outcome.san,
         played_by := player_color, played_at := now }]
    updated_at := now }

/-- The mutation phase of `submit_move` once all checks passed: record the
human move, classify it, then run the automated-opponent block. -/
def submit_core (st : ContractState) (now aiTime : Timestamp) (game : StoredGame)
    (player_color : PlayerColor) (move_outcome : MoveComputation) :
    ContractState × StoredGame :=
  match move_outcome.result with
  | some result =>
    ai_reply (apply_result st now (human_game1 now game player_color move_outcome) result).1
      aiTime (apply_result st now (human_game1 now game player_color move_outcome) result).2
  | none => ai_reply st aiTime (human_game1 now game player_color move_outcome)

/-- `ChainChessContract::submit_move`. -/
def submit_move (st : ContractState) (caller : ChainId) (now aiTime : Timestamp)
    (game_id : Nat) (uci : String) (promotion : Option String) :
    ContractState × Except ChainChessError StoredGame :=
  match load_game st game_id with
  | none => (st, .error (.GameNotFound game_id))
  | some game =>
    if game.status = .Finished then (st, .error .AlreadyFinished)
    else if game.status = .Lobby then (st, .error .MissingOpponent)
    else
      match resolve_seat game caller with
      | none => (st, .error .NotParticipant)
      | some player_color =>
        if player_color ≠ game.turn then (st, .error .NotYourTurn)
        else
          match apply_uci_move game.board_fen uci promotion with
          | none => (st, .error (.InvalidMove "move is illegal in current position"))
          | some move_outcome =>
            let p2 := submit_core st now aiTime game player_color move_outcome
            (save_game p2.1 p2.2, .ok p2.2)

/-- `ChainChessContract::resign` (its seat resolution has no AI arm). -/
def resign (st : ContractState) (caller : ChainId) (now : Timestamp) (game_id : Nat) :
    ContractState × Except ChainChessError StoredGame :=
  match load_game st game_id with
  | none => (st, .error (.GameNotFound game_id))
  | some game =>
    if game.status = .Finished then (st, .error .AlreadyFinished)
    else
      match (if caller = game.white then some PlayerColor.White
             else if game.black = some caller then some PlayerColor.Black
             else none) with
      | none => (st, .error .NotParticipant)
      | some player_color =>
        let p := apply_result st now game (.Winner player_color.other)
        (save_game p.1 p.2, .ok p.2)

/-! ## Helper lemmas -/

theorem lookupA_insertA {α β : Type} [DecidableEq α] (l : List (α × β)) (k : α) (v : β)
    (k' : α) : lookupA (insertA l k v) k' = if k' = k then some v else lookupA l k' := by
  induction l with
  | nil =>
    by_cases h : k' = k
    · subst h; simp [insertA, lookupA]
    · simp [insertA, lookupA, h, Ne.symm h]
  | cons hd tl ih =>
    obtain ⟨a, b⟩ := hd
    by_cases hak : a = k
    · subst hak
      by_cases h : k' = a
      · subst h; simp [insertA, lookupA]
      · simp [insertA, lookupA, h, Ne.symm h]
    · by_cases h : a = k'
      · have hk : ¬ k' = k := fun hh => hak (h.trans hh)
        simp [insertA, lookupA, hak, h, hk]
      · simp [insertA, lookupA, hak, h, ih]

theorem apply_result_game (st : ContractState) (now : Timestamp) (g : StoredGame)
    (r : MatchResult) :
    (apply_result st now g r).2 =
      { g with status := GameStatus.Finished
               winner := match r with | .Winner c => some c | .Draw => none
               updated_at := now } := rfl

/-- Extract the game of a successful outcome, with a fallback. -/
def okD (r : Except ChainChessError StoredGame) (d : StoredGame) : StoredGame :=
  match r with
  | .ok g => g
  | .error _ => d

/-- A placeholder game used as `okD`'s fallback in concrete statements. -/
def dummyGame : StoredGame :=
  { game_id := 0, white := 0, black := none, ai_black := false, board_fen := ""
    moves := [], turn := .White, status := .Lobby, winner := none
    created_at := 0, updated_at := 0, metadata := none }

/-! ## C2 — failures leave the persisted state unchanged -/

/-- C2: for every operation (create, join, submitMove, resign), whenever the
operation returns a failure the persisted state (games and leaderboard) is
exactly what it was before the operation; in particular an illegal move
leaves the stored game unchanged. -/
theorem c2_failure_leaves_state_unchanged :
    (∀ st creator now md ai e, (create_game st creator now md ai).2 = .error e →
        (create_game st creator now md ai).1 = st) ∧
    (∀ st caller now gid e, (join_game st caller now gid).2 = .error e →
        (join_game st caller now gid).1 = st) ∧
    (∀ st caller now aiT gid uci promo e,
        (submit_move st caller now aiT gid uci promo).2 = .error e →
        (submit_move st caller now aiT gid uci promo).1 = st) ∧
    (∀ st caller now gid e, (resign st caller now gid).2 = .error e →
        (resign st caller now gid).1 = st) := by
  refine ⟨?_, ?_, ?_, ?_⟩
  · intro st creator now md ai e
    unfold create_game
    split
    · intro _; rfl
    · intro h; exact Except.noConfusion h
  · intro st caller now gid e
    unfold join_game
    split
    · intro _; rfl
    · split
      · intro _; rfl
      · split
        · intro _; rfl
        · split
          · intro _; rfl
          · intro h; exact Except.noConfusion h
  · intro st caller now aiT gid uci promo e
    unfold submit_move
    split
    · intro _; rfl
    · split
      · intro _; rfl
      · split
        · intro _; rfl
        · split
          · intro _; rfl
          · split
            · intro _; rfl
            · split
              · intro _; rfl
              · intro h; exact Except.noConfusion h
  · intro st caller now gid e
    unfold resign
    split
    · intro _; rfl
    · split
      · intro _; rfl
      · split
        · intro _; rfl
        · intro h; exact Except.noConfusion h

/-- A demonstration game: both seats filled, initial position, White to move. -/
def demoGame : StoredGame :=
  { game_id := 1, white := 0, black := some 1, ai_black := false, board_fen := DEFAULT_FEN
    moves := [], turn := .White, status := .Active, winner := none
    created_at := 10, updated_at := 11, metadata := none }

/-- A demonstration state holding `demoGame` under id 1. -/
def demoSt : ContractState :=
  { next_game_id := 2, active_games := [(1, demoGame)], leaderboard := [] }

/-- Witness for C2: concrete failing calls — a wrong-turn join on a filled
game, a submit by a non-participant, a two-square bishop move from the
initial position (illegal), and a resign of an unknown game — all leave the
state untouched. -/
theorem c2_witness :
    (join_game demoSt 2 12 1).2 = .error (.NotJoinable 1) ∧
    (join_game demoSt 2 12 1).1 = demoSt ∧
    (submit_move demoSt 0 12 13 1 "f1d3" none).2 =
      .error (.InvalidMove "move is illegal in current position") ∧
    (submit_move demoSt 0 12 13 1 "f1d3" none).1 = demoSt ∧
    (resign demoSt 0 12 9).2 = .error (.GameNotFound 9) ∧
    (resign demoSt 0 12 9).1 = demoSt := by
  refine ⟨by rfl, c2_failure_leaves_state_unchanged.2.1 _ _ _ _ _ (by rfl), by rfl,
    c2_failure_leaves_state_unchanged.2.2.1 _ _ _ _ _ _ _ _ (by rfl), by rfl,
    c2_failure_leaves_state_unchanged.2.2.2 _ _ _ _ _ (by rfl)⟩

/-! ## C6 — resign always finishes with the other seat as winner -/

/-- The seat `resign` resolves a caller to (White is checked first, as in the
Rust `if` chain). -/
def resignSeat (g : StoredGame) (caller : ChainId) : PlayerColor :=
  if caller = g.white then .White else .Black

/-- C6: for every stored game whose status is not Finished and every caller
resolving to one of its seats, resign succeeds, transitions the game to
Finished with the other seat as winner, leaves the board untouched (there is
no hypothesis on `board_fen`: the move validator is never consulted), and
routes the state through the stats update `apply_result`. -/
theorem c6_resign_always_finishes (st : ContractState) (caller : ChainId) (now : Timestamp)
    (gid : Nat) (g : StoredGame)
    (hload : load_game st gid = some g) (hstatus : g.status ≠ .Finished)
    (hseat : caller = g.white ∨ g.black = some caller) :
    resign st caller now gid =
      (save_game (apply_result st now g (.Winner (resignSeat g caller).other)).1
         (apply_result st now g (.Winner (resignSeat g caller).other)).2,
       .ok (apply_result st now g (.Winner (resignSeat g caller).other)).2) ∧
    (apply_result st now g (.Winner (resignSeat g caller).other)).2.status = .Finished ∧
    (apply_result st now g (.Winner (resignSeat g caller).other)).2.winner =
      some (resignSeat g caller).other ∧
    (apply_result st now g (.Winner (resignSeat g caller).other)).2.board_fen = g.board_fen := by
  refine ⟨?_, by rw [apply_result_game], by rw [apply_result_game], by rw [apply_result_game]⟩
  by_cases hc : caller = g.white
  · simp [resign, hload, hstatus, hc, resignSeat]
  · rcases hseat with h | h
    · exact absurd h hc
    · simp [resign, hload, hstatus, hc, h, resignSeat]

/-- A game with an unparsable board position, used to exercise C6's
independence from the board. -/
def junkGame : StoredGame := { demoGame with board_fen := "garbage", game_id := 3 }

/-- State holding `junkGame` under id 3. -/
def junkSt : ContractState :=
  { next_game_id := 4, active_games := [(3, junkGame)], leaderboard := [] }

/-- Witness for C6: the black seat (caller 1) resigns a game whose stored
position is not even a valid FEN; the game finishes with White as winner. -/
theorem c6_witness :
    (apply_result junkSt 40 junkGame (.Winner (resignSeat junkGame 1).other)).2.status
        = .Finished ∧
    (apply_result junkSt 40 junkGame (.Winner (resignSeat junkGame 1).other)).2.winner
        = some PlayerColor.White ∧
    (apply_result junkSt 40 junkGame (.Winner (resignSeat junkGame 1).other)).2.board_fen
        = "garbage" := by
  have h := c6_resign_always_finishes junkSt 1 40 3 junkGame rfl (by decide) (Or.inr rfl)
  exact ⟨h.2.1, h.2.2.1, h.2.2.2⟩

/-! ## C10 — resigning a Lobby game -/

/-- C10: resign is accepted on a game still in Lobby status: the game jumps
from Lobby to Finished with the absent second seat (Black) as winner, and the
only stats mutation is a loss recorded for the creator; every other identity's
leaderboard entry is untouched. -/
theorem c10_lobby_resign (st : ContractState) (caller : ChainId) (now : Timestamp)
    (gid : Nat) (g : StoredGame)
    (hload : load_game st gid = some g) (hlobby : g.status = .Lobby)
    (hblack : g.black = none) (hcaller : caller = g.white) :
    (resign st caller now gid).2 = .ok (apply_result st now g (.Winner PlayerColor.Black)).2 ∧
    (apply_result st now g (.Winner PlayerColor.Black)).2.status = .Finished ∧
    (apply_result st now g (.Winner PlayerColor.Black)).2.winner = some PlayerColor.Black ∧
    (resign st caller now gid).1.leaderboard =
      insertA st.leaderboard g.white
        (lossBump ((lookupA st.leaderboard g.white).getD (PlayerStats.new g.white))) ∧
    (∀ ch, ch ≠ g.white → lookupA (resign st caller now gid).1.leaderboard ch =
      lookupA st.leaderboard ch) := by
  have hfin : g.status ≠ GameStatus.Finished := by rw [hlobby]; exact fun h => nomatch h
  have hres : resign st caller now gid =
      (save_game (apply_result st now g (.Winner PlayerColor.Black)).1
         (apply_result st now g (.Winner PlayerColor.Black)).2,
       .ok (apply_result st now g (.Winner PlayerColor.Black)).2) := by
    simp [resign, hload, hfin, hcaller, PlayerColor.other]
  have hlead : (apply_result st now g (.Winner PlayerColor.Black)).1.leaderboard =
      insertA st.leaderboard g.white
        (lossBump ((lookupA st.leaderboard g.white).getD (PlayerStats.new g.white))) := by
    simp [apply_result, player_chain, bump_stats, hblack, PlayerColor.other]
  refine ⟨by rw [hres], by rw [apply_result_game], by rw [apply_result_game], ?_, ?_⟩
  · rw [hres]
    exact hlead
  · intro ch hch
    rw [hres]
    show lookupA (apply_result st now g (.Winner PlayerColor.Black)).1.leaderboard ch = _
    rw [hlead, lookupA_insertA]
    simp [hch]

/-- A Lobby game awaiting a second player. -/
def lobbyGame : StoredGame := { demoGame with black := none, status := .Lobby, game_id := 2 }

/-- State holding `lobbyGame` under id 2. -/
def lobbySt : ContractState :=
  { next_game_id := 3, active_games := [(2, lobbyGame)], leaderboard := [] }

/-- Witness for C10: the creator (caller 0) resigns its own empty lobby;
Black wins, the creator takes a loss, identity 7 is untouched. -/
theorem c10_witness :
    (resign lobbySt 0 50 2).2 = .ok (apply_result lobbySt 50 lobbyGame (.Winner .Black)).2 ∧
    (apply_result lobbySt 50 lobbyGame (.Winner PlayerColor.Black)).2.winner
      = some PlayerColor.Black ∧
    (resign lobbySt 0 50 2).1.leaderboard = [(0, lossBump (PlayerStats.new 0))] ∧
    lookupA (resign lobbySt 0 50 2).1.leaderboard 7 = none := by
  have h := c10_lobby_resign lobbySt 0 50 2 lobbyGame rfl rfl rfl rfl
  exact ⟨h.1, h.2.2.1, h.2.2.2.1, h.2.2.2.2 7 (by decide)⟩

/-! ## C5 — stats updated exactly once per resolvable seat -/

/-- A seat's outcome of a finished game. -/
inductive SeatOutcome
  | win
  | loss
  | draw
deriving DecidableEq, Repr

/-- The outcome of seat `c` under a match result. -/
def seatOutcome (c : PlayerColor) : MatchResult → SeatOutcome
  | .Winner w => if c = w then .win else .loss
  | .Draw => .draw

/-- The stats update the specification prescribes per outcome: win is
rating +10 / wins +1 / games +1; loss is rating −5 / losses +1 / games +1;
draw is rating +1 / draws +1 / games +1. -/
def statDelta : SeatOutcome → PlayerStats → PlayerStats
  | .win, s =>
    { s with rating := s.rating + 10, wins := s.wins + 1, games_played := s.games_played + 1 }
  | .loss, s =>
    { s with rating := s.rating - 5, losses := s.losses + 1, games_played := s.games_played + 1 }
  | .draw, s =>
    { s with rating := s.rating + 1, draws := s.draws + 1, games_played := s.games_played + 1 }

/-- C5: when `apply_result` finishes a game, every seat with a resolvable
identity has its leaderboard record updated exactly once, by its outcome's
prescribed delta (lazily created at zero), and every other identity's record
— in particular the automated seat, which has none — is untouched. -/
theorem c5_stats_per_seat (st : ContractState) (now : Timestamp) (g : StoredGame)
    (r : MatchResult) (hdist : ∀ bc, g.black = some bc → g.white ≠ bc) :
    (∀ c ch, player_chain g c = some ch →
      lookupA (apply_result st now g r).1.leaderboard ch =
        some (statDelta (seatOutcome c r)
          ((lookupA st.leaderboard ch).getD (PlayerStats.new ch)))) ∧
    (∀ ch, player_chain g .White ≠ some ch → player_chain g .Black ≠ some ch →
      lookupA (apply_result st now g r).1.leaderboard ch = lookupA st.leaderboard ch) := by
  have hBoards : ∀ q : MatchResult, (apply_result st now g q).1.leaderboard =
      (apply_result st now g q).1.leaderboard := fun _ => rfl
  cases r with
  | Winner w =>
    cases hb : g.black with
    | none =>
      have hlead : (apply_result st now g (.Winner w)).1.leaderboard =
          (match w with
           | PlayerColor.White =>
              insertA st.leaderboard g.white
                (winBump ((lookupA st.leaderboard g.white).getD (PlayerStats.new g.white)))
           | PlayerColor.Black =>
              insertA st.leaderboard g.white
                (lossBump ((lookupA st.leaderboard g.white).getD (PlayerStats.new g.white)))) := by
        cases w <;> simp [apply_result, player_chain, bump_stats, hb, PlayerColor.other]
      constructor
      · intro c ch hc
        cases c with
        | White =>
          have hch : g.white = ch := by simpa [player_chain] using hc
          subst hch
          cases w <;>
            simp [hlead, lookupA_insertA, seatOutcome, statDelta, winBump, lossBump]
        | Black => simp [player_chain, hb] at hc
      · intro ch hw _
        have hne : ch ≠ g.white := fun hh => hw (by simp [player_chain, hh])
        cases w <;> simp [hlead, lookupA_insertA, hne]
    | some bc =>
      have hwb : g.white ≠ bc := hdist bc hb
      have hlead : (apply_result st now g (.Winner w)).1.leaderboard =
          (match w with
           | PlayerColor.White =>
              insertA
                (insertA st.leaderboard g.white
                  (winBump ((lookupA st.leaderboard g.white).getD (PlayerStats.new g.white))))
                bc
                (lossBump ((lookupA
                  (insertA st.leaderboard g.white
                    (winBump ((lookupA st.leaderboard g.white).getD
                      (PlayerStats.new g.white)))) bc).getD (PlayerStats.new bc)))
           | PlayerColor.Black =>
              insertA
                (insertA st.leaderboard bc
                  (winBump ((lookupA st.leaderboard bc).getD (PlayerStats.new bc))))
                g.white
                (lossBump ((lookupA
                  (insertA st.leaderboard bc
                    (winBump ((lookupA st.leaderboard bc).getD
                      (PlayerStats.new bc)))) g.white).getD (PlayerStats.new g.white)))) := by
        cases w <;> simp [apply_result, player_chain, bump_stats, hb, PlayerColor.other]
      constructor
      · intro c ch hc
        cases c with
        | White =>
          have hch : g.white = ch := by simpa [player_chain] using hc
          subst hch
          cases w with
          | White =>
            simp [hlead, lookupA_insertA, hwb, Ne.symm hwb, seatOutcome, statDelta, winBump]
          | Black =>
            simp [hlead, lookupA_insertA, hwb, Ne.symm hwb, seatOutcome, statDelta, lossBump]
        | Black =>
          have hch : bc = ch := by simpa [player_chain, hb] using hc
          subst hch
          cases w with
          | White =>
            simp [hlead, lookupA_insertA, hwb, Ne.symm hwb, seatOutcome, statDelta, lossBump]
          | Black =>
            simp [hlead, lookupA_insertA, hwb, Ne.symm hwb, seatOutcome, statDelta, winBump]
      · intro ch hw hbl
        have hne : ch ≠ g.white := fun hh => hw (by simp [player_chain, hh])
        have hne2 : ch ≠ bc := fun hh => hbl (by simp [player_chain, hb, hh])
        cases w <;> simp [hlead, lookupA_insertA, hne, hne2]
  | Draw =>
    cases hb : g.black with
    | none =>
      have hlead : (apply_result st now g .Draw).1.leaderboard =
          insertA st.leaderboard g.white
            (drawBump ((lookupA st.leaderboard g.white).getD (PlayerStats.new g.white))) := by
        simp [apply_result, player_chain, bump_stats, hb]
      constructor
      · intro c ch hc
        cases c with
        | White =>
          have hch : g.white = ch := by simpa [player_chain] using hc
          subst hch
          simp [hlead, lookupA_insertA, seatOutcome, statDelta, drawBump]
        | Black => simp [player_chain, hb] at hc
      · intro ch hw _
        have hne : ch ≠ g.white := fun hh => hw (by simp [player_chain, hh])
        simp [hlead, lookupA_insertA, hne]
    | some bc =>
      have hwb : g.white ≠ bc := hdist bc hb
      have hlead : (apply_result st now g .Draw).1.leaderboard =
          insertA
            (insertA st.leaderboard g.white
              (drawBump ((lookupA st.leaderboard g.white).getD (PlayerStats.new g.white))))
            bc
            (drawBump ((lookupA
              (insertA st.leaderboard g.white
                (drawBump ((lookupA st.leaderboard g.white).getD
                  (PlayerStats.new g.white)))) bc).getD (PlayerStats.new bc))) := by
        simp [apply_result, player_chain, bump_stats, hb]
      constructor
      · intro c ch hc
        cases c with
        | White =>
          have hch : g.white = ch := by simpa [player_chain] using hc
          subst hch
          simp [hlead, lookupA_insertA, hwb, Ne.symm hwb, seatOutcome, statDelta, drawBump]
        | Black =>
          have hch : bc = ch := by simpa [player_chain, hb] using hc
          subst hch
          simp [hlead, lookupA_insertA, hwb, Ne.symm hwb, seatOutcome, statDelta, drawBump]
      · intro ch hw hbl
        have hne : ch ≠ g.white := fun hh => hw (by simp [player_chain, hh])
        have hne2 : ch ≠ bc := fun hh => hbl (by simp [player_chain, hb, hh])
        simp [hlead, lookupA_insertA, hne, hne2]

/-- Witness for C5: White wins `demoGame` (seats 0 and 1): the winner's entry
becomes 1 win / rating 10, the loser's 1 loss / rating −5, identity 7 is
untouched. -/
theorem c5_witness :
    lookupA (apply_result demoSt 99 demoGame (.Winner .White)).1.leaderboard 0 =
      some (statDelta .win (PlayerStats.new 0)) ∧
    lookupA (apply_result demoSt 99 demoGame (.Winner .White)).1.leaderboard 1 =
      some (statDelta .loss (PlayerStats.new 1)) ∧
    lookupA (apply_result demoSt 99 demoGame (.Winner .White)).1.leaderboard 7 = none := by
  have h := c5_stats_per_seat demoSt 99 demoGame (.Winner .White)
    (by
      intro bc hbc
      have hbc1 : (some 1 : Option ChainId) = some bc := hbc
      cases hbc1
      decide)
  exact ⟨h.1 .White 0 rfl, h.1 .Black 1 rfl, h.2 7 (by decide) (by decide)⟩

/-! ## C8 — creation cap of 64 open games -/

/-- The specification's count: non-Finished (Lobby or Active) games created
by the identity, regardless of opponent kind. -/
def openGamesCreatedBy (st : ContractState) (chain : ChainId) : Nat :=
  (st.active_games.map Prod.snd).countP
    (fun g => g.white == chain && (g.status == .Lobby || g.status == .Active))

/-- The contract's pending-games count coincides with the specification's
open-games count. -/
theorem list_games_eq_open (st : ContractState) (chain : ChainId) :
    list_games_for_chain st chain false = openGamesCreatedBy st chain := by
  unfold list_games_for_chain openGamesCreatedBy
  apply List.countP_congr
  intro g _
  cases hg : g.status <;> simp [hg]

/-- C8: create is rejected with lobby-limit-reached exactly when the creator
already has 64 or more non-Finished (Lobby or Active) games it created —
counted regardless of opponent kind — and that is its only failure; below
the cap a fresh game is created and stored under the next id. -/
theorem c8_create_cap (st : ContractState) (creator : ChainId) (now : Timestamp)
    (md : Option String) (ai : Bool) :
    ((create_game st creator now md ai).2 = .error .LobbyLimitReached ↔
      MAX_OPEN_GAMES_PER_CHAIN ≤ openGamesCreatedBy st creator) ∧
    (∀ e, (create_game st creator now md ai).2 = .error e → e = .LobbyLimitReached) ∧
    (openGamesCreatedBy st creator < MAX_OPEN_GAMES_PER_CHAIN →
      (create_game st creator now md ai).2 =
        .ok (okD (create_game st creator now md ai).2 dummyGame) ∧
      (okD (create_game st creator now md ai).2 dummyGame).game_id = st.next_game_id ∧
      (okD (create_game st creator now md ai).2 dummyGame).white = creator ∧
      (okD (create_game st creator now md ai).2 dummyGame).ai_black = ai ∧
      load_game (create_game st creator now md ai).1 st.next_game_id =
        some (okD (create_game st creator now md ai).2 dummyGame)) := by
  have hcnt := list_games_eq_open st creator
  by_cases hlim : MAX_OPEN_GAMES_PER_CHAIN ≤ list_games_for_chain st creator false
  · have hrun : (create_game st creator now md ai).2 = .error .LobbyLimitReached := by
      simp [create_game, hlim]
    refine ⟨⟨fun _ => hcnt ▸ hlim, fun _ => hrun⟩, ?_, ?_⟩
    · intro e he
      rw [hrun] at he
      exact (Except.error.inj he).symm
    · intro hlt
      rw [hcnt] at hlim
      omega
  · have hrun : (create_game st creator now md ai) =
        ({ next_game_id := st.next_game_id + 1
           active_games := insertA st.active_games st.next_game_id
             { game_id := st.next_game_id, white := creator, black := none, ai_black := ai
               board_fen := DEFAULT_FEN, moves := [], turn := .White
               status := if ai then .Active else .Lobby
               winner := none, created_at := now, updated_at := now, metadata := md }
           leaderboard := st.leaderboard },
         .ok { game_id := st.next_game_id, white := creator, black := none, ai_black := ai
               board_fen := DEFAULT_FEN, moves := [], turn := .White
               status := if ai then .Active else .Lobby
               winner := none, created_at := now, updated_at := now, metadata := md }) := by
      simp [create_game, hlim]
    refine ⟨⟨fun hh => ?_, fun hh => ?_⟩, ?_, ?_⟩
    · rw [hrun] at hh
      exact absurd hh (by simp)
    · rw [← hcnt] at hh
      exact absurd hh hlim
    · intro e he
      rw [hrun] at he
      exact absurd he (by simp)
    · intro _
      rw [hrun]
      refine ⟨rfl, rfl, rfl, rfl, ?_⟩
      show lookupA (insertA st.active_games st.next_game_id _) st.next_game_id = _
      rw [lookupA_insertA]
      simp [okD]

/-- Witness for C8: on the empty state (zero open games, below the cap) a
human-vs-human game is created under id 1 for creator 5. -/
theorem c8_witness :
    (create_game { next_game_id := 1, active_games := [], leaderboard := [] } 5 3 none false).2 =
      .ok (okD (create_game { next_game_id := 1, active_games := [], leaderboard := [] }
        5 3 none false).2 dummyGame) ∧
    (okD (create_game { next_game_id := 1, active_games := [], leaderboard := [] }
        5 3 none false).2 dummyGame).white = 5 := by
  have h := (c8_create_cap { next_game_id := 1, active_games := [], leaderboard := [] }
    5 3 none false).2.2 (by decide)
  exact ⟨h.1, h.2.2.1⟩

/-! ## C3 — turn alternation -/

/-- Does the move list alternate colours starting with `c`? -/
def alternatingFrom : PlayerColor → List MoveRecord → Bool
  | _, [] => true
  | c, rec :: rest => rec.played_by == c && alternatingFrom c.other rest

/-- The side to move after the given moves, starting from `c`. -/
def nextTurn : PlayerColor → List MoveRecord → PlayerColor
  | c, [] => c
  | c, _ :: rest => nextTurn c.other rest

/-- The turn-alternation invariant of a stored game: the recorded moves
alternate colours starting with White (the creation turn), and `turn` is the
next colour in the sequence. -/
def turnInv (g : StoredGame) : Prop :=
  alternatingFrom .White g.moves = true ∧ g.turn = nextTurn .White g.moves

theorem nextTurn_append (c : PlayerColor) (ms : List MoveRecord) (rec : MoveRecord) :
    nextTurn c (ms ++ [rec]) = (nextTurn c ms).other := by
  induction ms generalizing c with
  | nil => rfl
  | cons hd tl ih => simpa [nextTurn] using ih c.other

theorem alternatingFrom_append (c : PlayerColor) (ms : List MoveRecord) (rec : MoveRecord) :
    alternatingFrom c (ms ++ [rec]) =
      (alternatingFrom c ms && (rec.played_by == nextTurn c ms)) := by
  induction ms generalizing c with
  | nil => simp [alternatingFrom, nextTurn]
  | cons hd tl ih => simp [alternatingFrom, nextTurn, ih c.other, Bool.and_assoc]

/-- The automated reply leaves the game unchanged, or — only when it was
Black's turn — appends exactly one Black move record and hands the turn to
White. -/
theorem ai_reply_shape (st : ContractState) (t : Timestamp) (g : StoredGame) :
    (ai_reply st t g).2 = g ∨
    (g.turn = .Black ∧ ∃ rec : MoveRecord, rec.played_by = .Black ∧
      (ai_reply st t g).2.moves = g.moves ++ [rec] ∧ (ai_reply st t g).2.turn = .White) := by
  unfold ai_reply
  split
  · rename_i hcond
    split
    · split
      · rename_i ao hao
        split
        · rename_i r hr
          right
          refine ⟨hcond.2.2,
            { uci := ao.uci, san := ao.san, played_by := .Black, played_at := t },
            rfl, ?_, ?_⟩
          · rw [apply_result_game]; rfl
          · rw [apply_result_game]; rfl
        · right
          exact ⟨hcond.2.2,
            { uci := ao.uci, san := ao.san, played_by := .Black, played_at := t },
            rfl, rfl, rfl⟩
      · left; rfl
    · left; rfl
  · left; rfl

/-- The mutation core appends the human record and flips the turn, and then
possibly appends one Black AI record handing the turn back to White. -/
theorem submit_core_shape (st : ContractState) (now aiT : Timestamp) (g0 : StoredGame)
    (pc : PlayerColor) (mo : MoveComputation) :
    ((submit_core st now aiT g0 pc mo).2.moves =
        g0.moves ++ [{ uci := mo.uci, san := mo.san, played_by := pc, played_at := now }] ∧
      (submit_core st now aiT g0 pc mo).2.turn = pc.other) ∨
    (pc.other = .Black ∧ ∃ rec : MoveRecord, rec.played_by = .Black ∧
      (submit_core st now aiT g0 pc mo).2.moves =
        g0.moves ++ [{ uci := mo.uci, san := mo.san, played_by := pc, played_at := now }, rec] ∧
      (submit_core st now aiT g0 pc mo).2.turn = .White) := by
  unfold submit_core
  split
  · rename_i r hr
    rcases ai_reply_shape (apply_result st now (human_game1 now g0 pc mo) r).1 aiT
        (apply_result st now (human_game1 now g0 pc mo) r).2 with h | ⟨ht, rec, hpb, hmv, htn⟩
    · left
      rw [h, apply_result_game]
      exact ⟨rfl, rfl⟩
    · right
      rw [apply_result_game] at ht hmv
      refine ⟨ht, rec, hpb, ?_, htn⟩
      simpa [human_game1, List.append_assoc] using hmv
  · rcases ai_reply_shape st aiT (human_game1 now g0 pc mo) with h | ⟨ht, rec, hpb, hmv, htn⟩
    · left
      rw [h]
      exact ⟨rfl, rfl⟩
    · right
      exact ⟨ht, rec, hpb, by simpa [human_game1, List.append_assoc] using hmv, htn⟩

/-- Inversion of a successful `submit_move`: the checks passed and the
returned game is the mutation core's. -/
theorem submit_move_ok_inv (st : ContractState) (caller : ChainId) (now aiT : Timestamp)
    (gid : Nat) (uci : String) (promo : Option String) (st' : ContractState) (g : StoredGame)
    (hrun : submit_move st caller now aiT gid uci promo = (st', Except.ok g)) :
    ∃ ga pc mo, load_game st gid = some ga ∧ resolve_seat ga caller = some pc ∧
      pc = ga.turn ∧ apply_uci_move ga.board_fen uci promo = some mo ∧
      g = (submit_core st now aiT ga pc mo).2 := by
  revert hrun
  unfold submit_move
  split
  · intro hrun; simp at hrun
  · rename_i ga hload
    split
    · intro hrun; simp at hrun
    · split
      · intro hrun; simp at hrun
      · split
        · intro hrun; simp at hrun
        · rename_i pc hseat
          split
          · intro hrun; simp at hrun
          · rename_i hturn
            split
            · intro hrun; simp at hrun
            · rename_i mo hmo
              intro hrun
              simp only [Prod.mk.injEq, Except.ok.injEq] at hrun
              exact ⟨ga, pc, mo, hload, hseat, not_not.mp hturn, hmo, hrun.2.symm⟩

/-- C3: accepted moves flip `turn` exactly once each — a successful
submitMove preserves the alternation invariant and either appends one move
flipping the turn, or (with the automated reply) appends two alternating
moves returning the turn to the submitter. -/
theorem c3_turn_alternates (st : ContractState) (caller : ChainId) (now aiT : Timestamp)
    (gid : Nat) (uci : String) (promo : Option String) (st' : ContractState)
    (g g0 : StoredGame)
    (hload : load_game st gid = some g0) (hinv : turnInv g0)
    (hrun : submit_move st caller now aiT gid uci promo = (st', Except.ok g)) :
    turnInv g ∧
    ((g.moves.length = g0.moves.length + 1 ∧ g.turn = g0.turn.other) ∨
     (g.moves.length = g0.moves.length + 2 ∧ g.turn = g0.turn)) := by
  obtain ⟨ga, pc, mo, hload2, hseat, hturn, hmo, hg⟩ :=
    submit_move_ok_inv st caller now aiT gid uci promo st' g hrun
  rw [hload] at hload2
  injection hload2 with hga
  subst hga
  subst hturn
  obtain ⟨halt, htn⟩ := hinv
  rcases submit_core_shape st now aiT g0 g0.turn mo with ⟨hmv, ht⟩ | ⟨hB, rec, hpb, hmv, ht⟩
  · rw [hg]
    constructor
    · constructor
      · rw [hmv, alternatingFrom_append, halt, ← htn]
        simp
      · rw [hmv, ht, nextTurn_append, ← htn]
    · left
      rw [hmv, ht]
      simp
  · have hW : g0.turn = PlayerColor.White := by
      cases hq : g0.turn
      · rfl
      · rw [hq] at hB
        exact absurd hB (by decide)
    rw [hg]
    constructor
    · constructor
      · have hmv2 : (submit_core st now aiT g0 g0.turn mo).2.moves =
            (g0.moves ++ [(⟨mo.uci, mo.san, g0.turn, now⟩ : MoveRecord)]) ++ [rec] := by
          rw [hmv, List.append_assoc]
          rfl
        rw [hmv2, alternatingFrom_append, alternatingFrom_append, halt, ← htn,
          nextTurn_append, ← htn, hpb, hB]
        simp
      · rw [hmv, ht]
        have hsplit : nextTurn PlayerColor.White
            (g0.moves ++ [(⟨mo.uci, mo.san, g0.turn, now⟩ : MoveRecord), rec]) =
            nextTurn PlayerColor.White
            ((g0.moves ++ [(⟨mo.uci, mo.san, g0.turn, now⟩ : MoveRecord)]) ++ [rec]) := by
          rw [List.append_assoc]
          rfl
        rw [hsplit, nextTurn_append, nextTurn_append, ← htn, hW]
        rfl
    · right
      rw [hmv, ht, hW]
      simp

/-- Witness for C3: submitting `e2e4` on the fresh two-seat demo game keeps
the alternation invariant and flips the turn once. -/
theorem c3_witness :
    turnInv (okD (submit_move demoSt 0 12 13 1 "e2e4" none).2 dummyGame) ∧
    (((okD (submit_move demoSt 0 12 13 1 "e2e4" none).2 dummyGame).moves.length =
        demoGame.moves.length + 1 ∧
      (okD (submit_move demoSt 0 12 13 1 "e2e4" none).2 dummyGame).turn =
        demoGame.turn.other) ∨
     ((okD (submit_move demoSt 0 12 13 1 "e2e4" none).2 dummyGame).moves.length =
        demoGame.moves.length + 2 ∧
      (okD (submit_move demoSt 0 12 13 1 "e2e4" none).2 dummyGame).turn = demoGame.turn)) :=
  c3_turn_alternates demoSt 0 12 13 1 "e2e4" none
    (submit_move demoSt 0 12 13 1 "e2e4" none).1
    (okD (submit_move demoSt 0 12 13 1 "e2e4" none).2 dummyGame) demoGame
    rfl ⟨rfl, rfl⟩ rfl

/-! ## C1 / C9 — the simplified move label -/

/-- An empty board, used only as a `getD` fallback. -/
def dummyBoard : Board :=
  { cells := [], sideToMove := .White, castleWK := false, castleWQ := false
    castleBK := false, castleBQ := false, epTarget := none, halfmove := 0, fullmove := 0 }

/-- The initial position's board. -/
def initBoard : Board := (boardOfFen DEFAULT_FEN).getD dummyBoard

/-- C1 counterexample: submitting "e2e4" by the first seat on the fresh
two-seat game succeeds, but the recorded label is "e2e4", not "e4" as the
claim states. -/
theorem c1_counterexample :
    (submit_move demoSt 0 12 13 1 "e2e4" none).2 =
      .ok (okD (submit_move demoSt 0 12 13 1 "e2e4" none).2 dummyGame) ∧
    (okD (submit_move demoSt 0 12 13 1 "e2e4" none).2 dummyGame).moves.map MoveRecord.san =
      [some "e2e4"] ∧
    ¬ ((okD (submit_move demoSt 0 12 13 1 "e2e4" none).2 dummyGame).moves.map MoveRecord.san =
      [some "e4"]) :=
  ⟨rfl, rfl, by decide⟩

/-- C1 amended: submitting "e2e4" by the first seat succeeds, the new
serialized position's side-to-move field is "b", the turn flips to Black,
and the recorded label is "e2e4" (source square plus destination square). -/
theorem c1_submit_e2e4 :
    (submit_move demoSt 0 12 13 1 "e2e4" none).2.toOption.map
        (fun g => ((splitStr g.board_fen ' ').getD 1 "", g.moves.map MoveRecord.san, g.turn)) =
      some ("b", [some "e2e4"], PlayerColor.Black) := rfl

/-- The label format claimed by the specification: piece letter (blank for
pawns), a capture marker whenever the destination is occupied, the
destination square, and a promotion suffix whenever the move promotes. -/
def sanSpecClaim (b : Board) (m : CMove) : String :=
  (match cellAt b m.src with
   | some (.King, _) => "K"
   | some (.Queen, _) => "Q"
   | some (.Rook, _) => "R"
   | some (.Bishop, _) => "B"
   | some (.Knight, _) => "N"
   | _ => "") ++
  (if (cellAt b m.dst).isSome then "x" else "") ++
  squareName m.dst ++
  (match m.promo with
   | some .Queen => "=Q"
   | some .Rook => "=R"
   | some .Bishop => "=B"
   | some .Knight => "=N"
   | some _ => "=Q"
   | none => "")

/-- C9 counterexample: the accepted pawn move e2e4 from the initial position
is labelled "e2e4" by the code, while the claimed format gives "e4". -/
theorem c9_counterexample :
    (⟨12, 28, none⟩ : CMove) ∈ legalMoves initBoard ∧
    generate_san initBoard ⟨12, 28, none⟩ = "e2e4" ∧
    sanSpecClaim initBoard ⟨12, 28, none⟩ = "e4" ∧
    generate_san initBoard ⟨12, 28, none⟩ ≠ sanSpecClaim initBoard ⟨12, 28, none⟩ :=
  ⟨by decide, rfl, rfl, by decide⟩

/-- The promotion letter of the label. -/
def promoLetterChar : PieceKind → Char
  | .Queen => 'Q'
  | .Rook => 'R'
  | .Bishop => 'B'
  | .Knight => 'N'
  | _ => 'Q'

/-- The piece letter of a recognized non-pawn mover, if any. -/
def pieceLetter (b : Board) (m : CMove) : Option Char :=
  match cellAt b m.src with
  | some (.King, _) => some 'K'
  | some (.Queen, _) => some 'Q'
  | some (.Rook, _) => some 'R'
  | some (.Bishop, _) => some 'B'
  | some (.Knight, _) => some 'N'
  | _ => none

/-- The label format the code actually produces (the amended C9): a
recognized non-pawn mover gets its letter, then `x` plus destination when
capturing, otherwise the destination (a promotion on an empty destination
falls to the promotion form).  A pawn (or unrecognized) mover capturing gets
its source-file letter plus destination with no capture marker; a non-capture
promotion gets source, destination, `=` and the piece letter; any other move
gets source plus destination. -/
def sanActualSpec (b : Board) (m : CMove) : String :=
  match pieceLetter b m, (cellAt b m.dst).isSome, m.promo with
  | some pc, true, _ => String.mk [pc, 'x'] ++ squareName m.dst
  | none, true, _ => String.mk ((squareName m.src).toList.take 1) ++ squareName m.dst
  | _, false, some p =>
    squareName m.src ++ squareName m.dst ++ String.mk ['=', promoLetterChar p]
  | some pc, false, none => String.mk [pc] ++ squareName m.dst
  | none, false, none => squareName m.src ++ squareName m.dst

/-- C9 amended: on every move (in particular on every accepted one), the
generated label has exactly the `sanActualSpec` shape: the capture marker is
inserted only for recognized non-pawn movers, pawn captures carry the source
file letter and no marker, and capture-promotions lose the promotion
suffix. -/
theorem c9_label_shape (b : Board) (m : CMove) :
    generate_san b m = sanActualSpec b m := by
  unfold generate_san sanActualSpec pieceLetter
  cases hsrc : cellAt b m.src with
  | none =>
    cases hdst : cellAt b m.dst <;> cases hp : m.promo <;>
      simp [hsrc, hdst, hp, promoLetterChar]
  | some pc =>
    obtain ⟨k, c⟩ := pc
    cases k <;> cases hdst : cellAt b m.dst <;> cases hp : m.promo <;>
      simp [hsrc, hdst, hp, promoLetterChar]

/-! ## C4 — outcome classification of a legal move -/

/-- C4: a legal move accepted by the validator is classified from the
resulting position: no result exactly when legal moves remain; a draw exactly
when no legal move remains and the mover's opponent is not in check
(stalemate); a win for the side that just moved (the pre-move side to move)
exactly when no legal move remains and the opponent is in check
(checkmate). -/
theorem c4_outcome_classification (fen uci : String) (promo : Option String)
    (b : Board) (m : CMove)
    (hb : boardOfFen fen = some b)
    (hp : parse_uci_move (processUci uci promo) = some m)
    (hm : m ∈ legalMoves b) :
    apply_uci_move fen uci promo =
      some { fen := fenOfBoard (makeMove b m), uci := processUci uci promo,
             san := some (generate_san b m), result := classifyOutcome b (makeMove b m) } ∧
    (classifyOutcome b (makeMove b m) = none ↔ legalMoves (makeMove b m) ≠ []) ∧
    (classifyOutcome b (makeMove b m) = some .Draw ↔
      (legalMoves (makeMove b m) = [] ∧
        inCheck (makeMove b m) (makeMove b m).sideToMove = false)) ∧
    (∀ w, classifyOutcome b (makeMove b m) = some (.Winner w) ↔
      (legalMoves (makeMove b m) = [] ∧
        inCheck (makeMove b m) (makeMove b m).sideToMove = true ∧ w = b.sideToMove)) := by
  have hany : (legalMoves b).any (fun legal => legal == m) = true :=
    List.any_eq_true.mpr ⟨m, hm, by simp⟩
  refine ⟨?_, ?_, ?_, ?_⟩
  · unfold apply_uci_move
    rw [hb]
    simp only [hp, hany, if_true]
  · by_cases hLM : legalMoves (makeMove b m) = []
    · by_cases hic : inCheck (makeMove b m) (makeMove b m).sideToMove = true <;>
        simp [classifyOutcome, boardStatus, hLM, hic]
    · simp [classifyOutcome, boardStatus, hLM]
  · by_cases hLM : legalMoves (makeMove b m) = []
    · by_cases hic : inCheck (makeMove b m) (makeMove b m).sideToMove = true <;>
        simp [classifyOutcome, boardStatus, hLM, hic]
    · simp [classifyOutcome, boardStatus, hLM]
  · intro w
    by_cases hLM : legalMoves (makeMove b m) = []
    · by_cases hic : inCheck (makeMove b m) (makeMove b m).sideToMove = true <;>
        simp [classifyOutcome, boardStatus, hLM, hic, eq_comm]
    · simp [classifyOutcome, boardStatus, hLM]

/-- The position after 1.f3 e5 2.g4, where Black mates with Qd8-h4. -/
def foolsMateFen : String := "rnbqkbnr/pppp1ppp/8/4p3/6P1/5P2/PPPPP2P/RNBQKBNR b KQkq g3 0 2"

/-- The parsed board of `foolsMateFen`. -/
def foolsMateBoard : Board := (boardOfFen foolsMateFen).getD dummyBoard

/-- Witness for C4: the legal queen move d8-h4 in `foolsMateFen` is
classified as a win for Black (checkmate), via the theorem's winner case. -/
theorem c4_witness :
    (apply_uci_move foolsMateFen "d8h4" none).map (fun mo => mo.result) =
      some (some (MatchResult.Winner PlayerColor.Black)) := by
  have h := c4_outcome_classification foolsMateFen "d8h4" none foolsMateBoard
    ⟨59, 31, none⟩ rfl rfl (by decide)
  rw [h.1]
  have hw := (h.2.2.2 PlayerColor.Black).mpr ⟨by decide, by decide, by decide⟩
  simp [hw]

/-! ## C7 — the AI heuristic picks the first maximal-score legal move -/

theorem score_move_nonneg (b : Board) (m : CMove) : 0 ≤ score_move b m := by
  unfold score_move
  have h1 : (0 : Int) ≤
      (match cellAt b m.dst with
       | some (piece, _) => piece_value piece
       | none => 0) := by
    cases cellAt b m.dst with
    | none => exact le_refl 0
    | some pc =>
      obtain ⟨p, _⟩ := pc
      cases p <;> simp [piece_value]
  have h2 : (0 : Int) ≤ (if m.promo.isSome then (5 : Int) else 0) := by
    split <;> simp
  have h3 : (0 : Int) ≤ square_bonus m.dst := by
    simp only [square_bonus]
    split_ifs <;> norm_num
  have := add_nonneg (add_nonneg h1 h2) h3
  linarith

/-- The scan of `pick_ai_move` started at a real candidate returns the first
element of maximal score: it is a member, no element scores higher, and the
first element scoring at least as much is the result itself. -/
theorem foldl_pick_first_max (board : Board) (l : List CMove) :
    ∀ m0 : CMove,
      ∃ m1, l.foldl (pickStep board) (some m0, score_move board m0) =
          (some m1, score_move board m1) ∧
        m1 ∈ m0 :: l ∧
        (∀ x ∈ m0 :: l, score_move board x ≤ score_move board m1) ∧
        (m0 :: l).find?
          (fun x => decide (score_move board m1 ≤ score_move board x)) = some m1 := by
  induction l with
  | nil =>
    intro m0
    refine ⟨m0, rfl, by simp, by simp, ?_⟩
    simp [List.find?]
  | cons x xs ih =>
    intro m0
    by_cases hlt : score_move board m0 < score_move board x
    · have hstep : pickStep board (some m0, score_move board m0) x =
          (some x, score_move board x) := by
        simp [pickStep, hlt]
      obtain ⟨m1, hfold, hmem, hmax, hfind⟩ := ih x
      have hm1x : score_move board x ≤ score_move board m1 := hmax x (by simp)
      refine ⟨m1, ?_, ?_, ?_, ?_⟩
      · rw [List.foldl_cons, hstep, hfold]
      · exact List.mem_cons_of_mem m0 hmem
      · intro y hy
        rcases List.mem_cons.mp hy with rfl | hy2
        · exact le_of_lt (lt_of_lt_of_le hlt hm1x)
        · exact hmax y hy2
      · have hm0 : ¬ (score_move board m1 ≤ score_move board m0) := by
          intro hle
          exact absurd (lt_of_lt_of_le hlt hm1x) (not_lt.mpr hle)
        simp only [List.find?, decide_eq_false hm0]
        exact hfind
    · have hstep : pickStep board (some m0, score_move board m0) x =
          (some m0, score_move board m0) := by
        simp [pickStep, hlt]
      obtain ⟨m1, hfold, hmem, hmax, hfind⟩ := ih m0
      have h0 : score_move board m0 ≤ score_move board m1 := hmax m0 (by simp)
      have hxm : score_move board x ≤ score_move board m0 := not_lt.mp hlt
      refine ⟨m1, ?_, ?_, ?_, ?_⟩
      · rw [List.foldl_cons, hstep, hfold]
      · rcases List.mem_cons.mp hmem with rfl | h2
        · exact List.mem_cons_self _ _
        · exact List.mem_cons_of_mem _ (List.mem_cons_of_mem _ h2)
      · intro y hy
        rcases List.mem_cons.mp hy with rfl | hy2
        · exact hmax y (by simp)
        rcases List.mem_cons.mp hy2 with rfl | hy3
        · exact le_trans hxm h0
        · exact hmax y (List.mem_cons_of_mem _ hy3)
      · by_cases hp0 : score_move board m1 ≤ score_move board m0
        · have hm1m0 : m1 = m0 := by
            have hff := hfind
            simp only [List.find?, decide_eq_true hp0] at hff
            exact (Option.some.inj hff).symm
          subst hm1m0
          simp only [List.find?, decide_eq_true hp0]
        · have hpx : ¬ (score_move board m1 ≤ score_move board x) := by
            intro hle
            exact hp0 (le_trans hle hxm)
          have hff := hfind
          simp only [List.find?, decide_eq_false hp0] at hff
          simp only [List.find?, decide_eq_false hp0, decide_eq_false hpx]
          exact hff

/-- C7: on every parsable position the AI choice is deterministic; it
returns no move exactly when the legal-move set is empty, and otherwise it
returns the first legal move (in enumeration order) maximizing the move
score. -/
theorem c7_ai_pick (fen : String) (b : Board) (hb : boardOfFen fen = some b) :
    (pick_ai_move fen = none ↔ legalMoves b = []) ∧
    (∀ s, pick_ai_move fen = some s →
      ∃ m, s = move_to_uci_string m ∧ m ∈ legalMoves b ∧
        (∀ x ∈ legalMoves b, score_move b x ≤ score_move b m) ∧
        (legalMoves b).find? (fun x => decide (score_move b m ≤ score_move b x)) = some m) := by
  have hpick : pick_ai_move fen =
      ((legalMoves b).foldl (pickStep b) (none, i32Min)).1.map move_to_uci_string := by
    unfold pick_ai_move
    rw [hb]
  cases hl : legalMoves b with
  | nil =>
    constructor
    · rw [hpick, hl]
      simp
    · intro s hs
      rw [hpick, hl] at hs
      simp at hs
  | cons m0 rest =>
    have h0 : i32Min < score_move b m0 :=
      lt_of_lt_of_le (by decide) (score_move_nonneg b m0)
    have hstep0 : pickStep b (none, i32Min) m0 = (some m0, score_move b m0) := by
      simp [pickStep, h0]
    obtain ⟨m1, hfold, hmem, hmax, hfind⟩ := foldl_pick_first_max b rest m0
    have hres : pick_ai_move fen = some (move_to_uci_string m1) := by
      rw [hpick, hl, List.foldl_cons, hstep0, hfold]
      rfl
    constructor
    · constructor
      · intro h
        rw [hres] at h
        exact absurd h (by simp)
      · intro h
        exact absurd h (by simp)
    · intro s hs
      rw [hres] at hs
      obtain rfl : s = move_to_uci_string m1 := (Option.some.inj hs).symm
      exact ⟨m1, rfl, hmem, hmax, hfind⟩

/-- Witness for C7: on the initial position the heuristic is defined (the
legal-move set is nonempty) and returns d2d4, the first move reaching the
maximal score of 2 (an inner-center destination). -/
theorem c7_witness :
    (pick_ai_move DEFAULT_FEN = none ↔ legalMoves initBoard = []) ∧
    pick_ai_move DEFAULT_FEN = some "d2d4" :=
  ⟨(c7_ai_pick DEFAULT_FEN initBoard rfl).1, by rfl⟩
